import Mathlib

/-!
Shallow embedding of the candidate-generation engine of the
Project-Advanced_CWL repository (file `main_Cli.py`, class
`SmartHumanPasswordGenerator`, plus the stratified sampler of
`old_versions/Var3.py`).

Python strings are modelled as `List Char`; Python `set` objects are
modelled as duplicate-free lists built by insertion (`sadd` / `supdate`).
Python's `list(someSet)` enumerates a set in an order that is not a
function of the profile, the configuration, or the `random` seed (string
hashing is salted per process); every such enumeration site therefore
takes an explicit reordering function `ord` as a parameter.  Outcomes of
the `random` module's draws are modelled as an explicit stream of
naturals (`Rng`): a fixed seed corresponds to a fixed stream.
-/

/-- Python strings are modelled as lists of characters. -/
abbrev Str := List Char

/-- The ASCII upper-to-lower case table. -/
def lowerTable : List (Char × Char) :=
  [('A', 'a'), ('B', 'b'), ('C', 'c'), ('D', 'd'), ('E', 'e'), ('F', 'f'),
   ('G', 'g'), ('H', 'h'), ('I', 'i'), ('J', 'j'), ('K', 'k'), ('L', 'l'),
   ('M', 'm'), ('N', 'n'), ('O', 'o'), ('P', 'p'), ('Q', 'q'), ('R', 'r'),
   ('S', 's'), ('T', 't'), ('U', 'u'), ('V', 'v'), ('W', 'w'), ('X', 'x'),
   ('Y', 'y'), ('Z', 'z')]

/-- The ASCII lower-to-upper case table. -/
def upperTable : List (Char × Char) := lowerTable.map (fun p => (p.2, p.1))

/-- ASCII lower-casing of one character, the effect of Python's
`str.lower` on the ASCII range. -/
def pyLowerChar (c : Char) : Char := (lowerTable.lookup c).getD c

/-- ASCII upper-casing of one character, the effect of Python's
`str.upper` on the ASCII range. -/
def pyUpperChar (c : Char) : Char := (upperTable.lookup c).getD c

/-- Python `str.lower` (ASCII). -/
def pyLower (s : Str) : Str := s.map pyLowerChar

/-- Python `str.capitalize`: first character upper-cased, the rest
lower-cased. -/
def pyCapitalize (s : Str) : Str :=
  match s with
  | [] => []
  | c :: rest => pyUpperChar c :: pyLower rest

/-- One step of Python `str.title`: a cased character is upper-cased when
the previous character was not alphabetic, lower-cased otherwise. -/
def pyTitleAux : Bool → Str → Str
  | _, [] => []
  | prevAlpha, c :: rest =>
      if c.isAlpha then
        (if prevAlpha then pyLowerChar c else pyUpperChar c) :: pyTitleAux true rest
      else
        c :: pyTitleAux false rest

/-- Python `str.title` (ASCII). -/
def pyTitle (s : Str) : Str := pyTitleAux false s

/-- Python `re.split` on a character class: split `s` at every character
satisfying `p`, keeping empty pieces. -/
def pySplit (p : Char → Bool) : Str → List Str
  | [] => [[]]
  | c :: rest =>
      if p c then [] :: pySplit p rest
      else
        match pySplit p rest with
        | [] => [[c]]
        | h :: t => (c :: h) :: t

/-- Python `str.replace (String.singleton c) r`: replace every occurrence
of the character `c` by the string `r`. -/
def pyReplaceChar (s : Str) (c : Char) (r : Str) : Str :=
  s.foldr (fun x acc => if x = c then r ++ acc else x :: acc) []

/-- `s[a:b]` slicing of Python (for `0 ≤ a ≤ b`). -/
def pySlice (s : Str) (a b : Nat) : Str := (s.drop a).take (b - a)

/-- `True` when `s` contains a run of at least `k` consecutive characters
satisfying `p` (the `re.search` of a `{k,}`-quantified character class);
`cur` counts the current run. -/
def hasRunGeAux (p : Char → Bool) (k : Nat) : Str → Nat → Bool
  | [], cur => k ≤ cur
  | c :: rest, cur =>
      if k ≤ cur then true
      else if p c then hasRunGeAux p k rest (cur + 1)
      else hasRunGeAux p k rest 0

/-- `True` when `s` contains a run of at least `k` consecutive characters
satisfying `p`. -/
def hasRunGe (p : Char → Bool) (k : Nat) (s : Str) : Bool :=
  hasRunGeAux p k s 0

/-- Insertion into the model of a Python `set`: append the element unless
it is already present. -/
def sadd (s : List Str) (x : Str) : List Str :=
  if x ∈ s then s else s ++ [x]

/-- `set.update`: insert every element of `l`. -/
def supdate (s : List Str) (l : List Str) : List Str :=
  l.foldl sadd s

/-- `DateComponents`: the dictionary returned by `parse_human_date`.
A `none` field models an absent dictionary key; `date_info.get(k, '')`
is modelled by `Option.getD _ []`. -/
structure DateInfo where
  day : Option Str
  month : Option Str
  year : Option Str
  year_short : Option Str
  full : Option Str
deriving DecidableEq

/-- The all-empty dictionary `{}`. -/
def DateInfo.empty : DateInfo := ⟨none, none, none, none, none⟩

/-- `parse_human_date` of `main_Cli.py` (identical in `Gui/v2.py`):
strip non-digits, then slice positionally on the digit count
(8 ⇒ DDMMYYYY, 6 ⇒ DDMMYY with the century assumed `20`, 4 ⇒ DDMM);
the cleaned digit string itself is stored under `full` whenever the
input was non-empty. -/
def parseHumanDate (dateStr : Str) : DateInfo :=
  if dateStr = [] then DateInfo.empty
  else
    let clean := dateStr.filter Char.isDigit
    if clean.length = 8 then
      ⟨some (pySlice clean 0 2), some (pySlice clean 2 4),
       some (pySlice clean 4 8), some (pySlice clean 6 8), some clean⟩
    else if clean.length = 6 then
      ⟨some (pySlice clean 0 2), some (pySlice clean 2 4),
       some ('2' :: '0' :: pySlice clean 4 6), some (pySlice clean 4 6), some clean⟩
    else if clean.length = 4 then
      ⟨some (pySlice clean 0 2), some (pySlice clean 2 4), none, none, some clean⟩
    else
      ⟨none, none, none, none, some clean⟩

example : parseHumanDate "15061990".data =
    ⟨some "15".data, some "06".data, some "1990".data, some "90".data, some "15061990".data⟩ := by
  decide

example : parseHumanDate "abcd".data = ⟨none, none, none, none, some []⟩ := by decide

/-- One draw from the modelled random stream: its head (0 when the
stream is exhausted) and the rest. -/
def rngNext (r : List Nat) : Nat × List Nat := (r.headD 0, r.tail)

/-- Interpretation of a probabilistic test such as `random.random() < 0.3`
on one drawn outcome. -/
def rngCoin (n : Nat) : Bool := n % 2 = 1

/-- `self.common_specials`. -/
def commonSpecials : List Str :=
  [['!'], ['@'], ['#'], ['$'], ['%'], ['&'], ['*'], ['_'], ['.'], ['-']]

/-- `self.common_numbers`. -/
def commonNumbers : List Str :=
  ["123".data, "1234".data, "12345".data, "123456".data,
   "321".data, "4321".data, "54321".data,
   "111".data, "222".data, "333".data, "444".data, "555".data,
   "666".data, "777".data, "888".data, "999".data,
   "007".data, "100".data, "200".data, "300".data,
   "69".data, "420".data, "777".data, "888".data,
   "01".data, "02".data, "03".data, "04".data, "05".data,
   "10".data, "20".data, "30".data, "40".data, "50".data,
   "99".data, "88".data, "77".data, "66".data,
   "1111".data, "2222".data, "3333".data, "4444".data,
   "0000".data, "11111".data, "22222".data]

/-- `self.leet_map` (Python dict, in insertion order). -/
def leetMap : List (Char × List Char) :=
  [('a', ['4', '@']), ('e', ['3']), ('i', ['1', '!']),
   ('o', ['0']), ('s', ['5', '$']), ('t', ['7'])]

/-- One piece of a pattern template: a literal or a named placeholder. -/
inductive PatItem where
  | lit (s : Str)
  | var (n : String)
deriving DecidableEq

/-- `self.human_patterns`, transcribed in order. -/
def humanPatterns : List (List PatItem) :=
  [[.var "first", .var "last"],
   [.var "last", .var "first"],
   [.var "first", .var "last", .var "year"],
   [.var "last", .var "first", .var "year"],
   [.var "first", .var "last_initial", .var "year"],
   [.var "first_initial", .var "last", .var "year"],
   [.var "first", .var "last", .var "day", .var "month"],
   [.var "first", .var "last", .var "month", .var "year"],
   [.var "first", .var "last", .var "year_short"],
   [.var "first", .var "year"],
   [.var "last", .var "year"],
   [.var "nick", .var "year"],
   [.var "nick", .var "birth_day"],
   [.var "nick", .var "birth_month"],
   [.var "nick", .var "birth_day", .var "birth_month"],
   [.var "last", .var "first", .var "year_short"],
   [.var "year", .var "first", .var "last"],
   [.var "first", .lit ['.'], .var "last", .var "year_short"],
   [.var "first", .lit ['_'], .var "last", .var "year"],
   [.var "first", .var "special", .var "last", .var "year"],
   [.var "first", .var "last", .var "special", .var "year"],
   [.var "first", .var "last", .lit "123".data],
   [.var "first", .var "last", .lit "1234".data],
   [.var "first", .var "last", .lit "12345".data],
   [.var "first", .var "last", .lit ['!']],
   [.var "first", .var "last", .lit "!!".data],
   [.var "first", .var "last", .lit ['?']],
   [.var "first", .var "spouse_initial", .var "year"],
   [.var "child_name", .var "year"],
   [.var "pet_name", .var "year"],
   [.var "first", .var "birth_day"],
   [.var "last", .var "birth_month"],
   [.var "first_initial", .var "last_initial", .var "year"],
   [.var "first", .var "year", .var "last"],
   [.var "year", .var "first", .var "year_short"]]

/-- `pattern.format(**vars_dict)`: `none` models the `KeyError` raised
when a referenced slot is absent from the bindings. -/
def formatPattern (vars : List (String × Str)) : List PatItem → Option Str
  | [] => some []
  | .lit s :: rest => (formatPattern vars rest).map (s ++ ·)
  | .var n :: rest =>
      match vars.lookup n with
      | none => none
      | some v => (formatPattern vars rest).map (v ++ ·)

/-- The input dictionary `data`: `none` models an absent key; boolean
options default as the corresponding `data.get` calls do. -/
structure DataIn where
  first_name : Str := []
  last_name : Str := []
  nickname : Str := []
  birth_date : Str := []
  spouse_name : Option Str := none
  child_name : Option Str := none
  pet_name : Option Str := none
  use_specials : Bool := false
  use_leet : Bool := false
  add_numbers : Bool := true
  specials : Option (List Str) := none

/-- A binding present only when the corresponding optional field is. -/
def optArm (nm : String) (f : Str → Str) (o : Option Str) : List (String × Str) :=
  match o with
  | some s => [(nm, f s)]
  | none => []

/-- `vars_dict` as built in `generate_smart_combinations` (its base keys,
then `spouse_initial` / `child_name` / `pet_name` only when the
corresponding field is present).  `first`, `last`, `nick` are the already
lower-cased fields and `specialVar` the value bound to `special`. -/
def buildVars (first last nick : Str) (di : DateInfo) (specialVar : Str)
    (data : DataIn) : List (String × Str) :=
  [("first", first), ("first_initial", first.take 1),
   ("last", last), ("last_initial", last.take 1),
   ("nick", nick),
   ("year", di.year.getD []), ("year_short", di.year_short.getD []),
   ("birth_day", di.day.getD []), ("birth_month", di.month.getD []),
   ("day", di.day.getD []), ("month", di.month.getD []),
   ("special", specialVar)]
  ++ optArm "spouse_initial" (fun sp => (pyLower sp).take 1) data.spouse_name
  ++ optArm "child_name" pyLower data.child_name
  ++ optArm "pet_name" pyLower data.pet_name

/-- The body of the `for pattern in self.human_patterns` loop: format the
pattern (skipping it on a missing slot), keep the result when its length
lies in the 6..20 band, add its `title` and `capitalize` variants, and,
when `add_numbers` is set, append each of the first 10 common numbers
(plus a middle-insertion variant for separator-bearing candidates). -/
def applyPattern (addNumbers : Bool) (vars : List (String × Str))
    (s : List Str) (pat : List PatItem) : List Str :=
  match formatPattern vars pat with
  | none => s
  | some pwd =>
      if 6 ≤ pwd.length ∧ pwd.length ≤ 20 then
        let s3 := sadd (sadd (sadd s pwd) (pyTitle pwd)) (pyCapitalize pwd)
        if addNumbers then
          (commonNumbers.take 10).foldl (fun acc num =>
            let acc1 := sadd acc (pwd ++ num)
            if '_' ∈ pwd ∨ '.' ∈ pwd then
              let parts := pySplit (fun c => c = '.' ∨ c = '_') pwd
              if 1 < parts.length then
                sadd acc1 ((parts[0]?.getD []) ++ num ++ (parts[1]?.getD []))
              else acc1
            else acc1) s3
        else s3
      else s

/-- `generate_specific_examples` (it adds nothing when either name is
empty), returned as the list of strings it adds, in order. -/
def specificExamples (first last : Str) (di : DateInfo) : List Str :=
  if first = [] ∨ last = [] then []
  else
    let day := di.day.getD []
    let month := di.month.getD []
    let year := di.year.getD []
    let ys := di.year_short.getD []
    [first ++ last ++ day ++ month ++ ys,
     first ++ last ++ year,
     first ++ last ++ day,
     first ++ last ++ month,
     first ++ last ++ ys,
     last ++ first ++ day ++ month ++ year,
     last ++ first ++ year,
     last ++ first ++ day ++ month,
     first ++ last ++ last ++ year,
     first ++ first ++ last ++ year,
     first ++ ['.'] ++ last ++ ys,
     first ++ ['_'] ++ last ++ year,
     first ++ last ++ ['@'] ++ ys,
     first ++ year ++ last,
     ys ++ first ++ last,
     first ++ last.take 1 ++ year,
     first ++ last,
     last ++ first,
     first.take 1 ++ last,
     first ++ last.take 1,
     first ++ last ++ "123".data,
     first ++ last ++ "!23".data,
     first ++ last ++ "@123".data]

/-- The `date_combinations` list built inside `add_number_variations`. -/
def dateCombos (di : DateInfo) : List Str :=
  let day := di.day.getD []
  let month := di.month.getD []
  let year := di.year.getD []
  let ys := di.year_short.getD []
  (if day ≠ [] ∧ month ≠ [] then [day ++ month, month ++ day] else [])
  ++ (if day ≠ [] ∧ month ≠ [] ∧ ys ≠ [] then
        [day ++ month ++ ys, month ++ day ++ ys] else [])
  ++ (if year ≠ [] then [year] else [])
  ++ (if ys ≠ [] then [ys] else [])

/-- `add_number_variations`: date combos appended/prepended to the first
100 enumerated candidates (with a trailing-digit-run replacement), then
the first 5 common numbers appended to the first 50 (with a
middle-insertion variant for separator-bearing candidates). -/
def addNumberVariations (ord : List Str → List Str) (passwords : List Str)
    (di : DateInfo) : List Str :=
  let np0 := ((ord passwords).take 100).foldl (fun acc pwd =>
    ((dateCombos di).take 3).foldl (fun acc combo =>
      let a2 := sadd (sadd acc (pwd ++ combo)) (combo ++ pwd)
      if pwd.any Char.isDigit then
        if pwd.reverse.takeWhile Char.isDigit ≠ [] then
          sadd a2 ((pwd.reverse.dropWhile Char.isDigit).reverse ++ combo)
        else a2
      else a2) acc) []
  ((ord passwords).take 50).foldl (fun acc pwd =>
    (commonNumbers.take 5).foldl (fun acc num =>
      let a1 := sadd acc (pwd ++ num)
      if 5 < pwd.length ∧ ('_' ∈ pwd ∨ '.' ∈ pwd ∨ '-' ∈ pwd) then
        let parts := pySplit (fun c => c = '.' ∨ c = '_' ∨ c = '-') pwd
        if parts.length = 2 then
          sadd a1 ((parts[0]?.getD []) ++ num ++ (parts[1]?.getD []))
        else a1
      else a1) acc) np0

/-- `add_special_variations`: for the first 200 enumerated candidates,
keep the original and add each of the first 3 specials at the end, the
beginning, both ends, in place of spaces, and at the midpoint of longer
candidates. -/
def addSpecialVariations (ord : List Str → List Str) (passwords : List Str)
    (specials : List Str) : List Str :=
  ((ord passwords).take 200).foldl (fun acc pwd =>
    (specials.take 3).foldl (fun acc sp =>
      let a3 := sadd (sadd (sadd acc (pwd ++ sp)) (sp ++ pwd)) (sp ++ pwd ++ sp)
      let a4 := if ' ' ∈ pwd then
                  sadd a3 (pwd.foldr (fun x r => if x = ' ' then sp ++ r else x :: r) [])
                else a3
      if 8 < pwd.length then
        sadd a4 (pwd.take (pwd.length / 2) ++ sp ++ pwd.drop (pwd.length / 2))
      else a4) (sadd acc pwd)) []

/-- The per-character body of `add_leet_variations`: when the (lowered)
current candidate contains the letter, flip a coin and on success replace
all its lower- then upper-case occurrences by drawn substitutes. -/
def leetStep (st : Str × List Nat) (e : Char × List Char) : Str × List Nat :=
  let (leet, rng) := st
  let (ch, subs) := e
  if ch ∈ pyLower leet then
    let (c2, rng1) := rngNext rng
    if rngCoin c2 then
      let (i1, rng2) := rngNext rng1
      let leet1 := pyReplaceChar leet ch [subs.getD (i1 % subs.length) ch]
      let (i2, rng3) := rngNext rng2
      (pyReplaceChar leet1 (pyUpperChar ch) [subs.getD (i2 % subs.length) ch], rng3)
    else (leet, rng1)
  else (leet, rng)

/-- `add_leet_variations`: keep each of the first 100 enumerated
candidates and, with 30% probability, add its leet-substituted variant
when the substitutions changed it. -/
def addLeetVariations (ord : List Str → List Str) (rng : List Nat)
    (passwords : List Str) : List Str :=
  (((ord passwords).take 100).foldl (fun st pwd =>
    let (acc, rng) := st
    let acc0 := sadd acc pwd
    let (c, rng1) := rngNext rng
    if rngCoin c then
      let (leet, rng2) := leetMap.foldl leetStep (pwd, rng1)
      (if leet ≠ pwd then sadd acc0 leet else acc0, rng2)
    else (acc0, rng1)) (([] : List Str), rng)).1

/-- `generate_common_passwords`, as the list of strings it adds. -/
def commonPasswords (first last : Str) (di : DateInfo) : List Str :=
  if first = [] ∨ last = [] then []
  else
    let year := di.year.getD []
    let ys := di.year_short.getD []
    [first ++ "123".data, first ++ "1234".data, last ++ "123".data,
     first ++ last.take 1 ++ "123".data,
     first ++ "!23".data, first ++ "@123".data, first ++ "#123".data]
    ++ (if year ≠ [] then
          [first ++ year, last ++ year, first ++ last.take 1 ++ ys] else [])
    ++ [pyLower first, pyTitle first, pyLower last, pyTitle last]

/-- The numeric-augmentation stage: a union when `add_numbers` is set, a
no-op otherwise. -/
def stageNumbers (ord : List Str → List Str) (di : DateInfo)
    (addNumbers : Bool) (s : List Str) : List Str :=
  if addNumbers then supdate s (addNumberVariations ord s di) else s

/-- The special-character-augmentation stage: a union when `use_specials`
is set, a no-op otherwise. -/
def stageSpecials (ord : List Str → List Str) (specials : List Str)
    (useSpecials : Bool) (s : List Str) : List Str :=
  if useSpecials then supdate s (addSpecialVariations ord s specials) else s

/-- The leet-substitution stage: a union when `use_leet` is set, a no-op
otherwise. -/
def stageLeet (ord : List Str → List Str) (rng : List Nat)
    (useLeet : Bool) (s : List Str) : List Str :=
  if useLeet then supdate s (addLeetVariations ord rng s) else s

/-- The body of `generate_smart_combinations` after its date-parsing
step: lower the fields, build the bindings (drawing the run's special
once when `use_specials`), expand every pattern, add the specific
examples, run the three gated mutation stages, and finally union in the
common passwords. -/
def generateWithDate (ord : List Str → List Str) (rng : List Nat)
    (data : DataIn) (di : DateInfo) : List Str :=
  let first := pyLower data.first_name
  let last := pyLower data.last_name
  let nick := pyLower data.nickname
  let (specialVar, rng1) :=
    if data.use_specials then
      ((commonSpecials.getD ((rngNext rng).1 % commonSpecials.length) []), (rngNext rng).2)
    else ([], rng)
  let vars := buildVars first last nick di specialVar data
  let p1 := humanPatterns.foldl (applyPattern data.add_numbers vars) []
  let p2 := supdate p1 (specificExamples first last di)
  let p3 := stageNumbers ord di data.add_numbers p2
  let p4 := stageSpecials ord (data.specials.getD commonSpecials) data.use_specials p3
  let p5 := stageLeet ord rng1 data.use_leet p4
  supdate p5 (commonPasswords first last di)

/-- `generate_smart_combinations`: parse the birth date, then run
`generateWithDate`. -/
def generateSmartCombinations (ord : List Str → List Str) (rng : List Nat)
    (data : DataIn) : List Str :=
  generateWithDate ord rng data (parseHumanDate data.birth_date)

/-- The special characters of the filter's consecutive-specials rule
(`[!@#$%^&*]`). -/
def filterSpecials : Str := "!@#$%^&*".data

/-- The filter predicate of `analyze_and_filter`: length in
`[minL, maxL]`, no run of 3+ of `!@#$%^&*`, no run of 6+ digits, and at
least one ASCII letter. -/
def filterPred (minL maxL : Nat) (pwd : Str) : Bool :=
  Nat.ble minL pwd.length && Nat.ble pwd.length maxL
  && !(hasRunGe (fun c => c ∈ filterSpecials) 3 pwd)
  && !(hasRunGe Char.isDigit 6 pwd)
  && pwd.any Char.isAlpha

/-- `analyze_and_filter` (its statistics printing has no effect on the
returned set). -/
def analyzeAndFilter (passwords : List Str) (minL maxL : Nat) : List Str :=
  passwords.filter (filterPred minL maxL)

/-- `main`'s size limiting: `if args.max > 0 and len(filtered) > args.max:
filtered = set(list(filtered)[:args.max])`. -/
def limitStep (ord : List Str → List Str) (filtered : List Str)
    (maxN : Int) : List Str :=
  if 0 < maxN ∧ maxN < (filtered.length : Int) then
    supdate [] ((ord filtered).take maxN.toNat)
  else filtered

/-- Lexicographic (code-point) strict comparison of Python strings. -/
def strLt : Str → Str → Bool
  | [], [] => false
  | [], _ :: _ => true
  | _ :: _, [] => false
  | a :: as, b :: bs => if a < b then true else if b < a then false else strLt as bs

/-- The sort key of `main`'s final ordering: ascending length, then
lexicographic. -/
def pwdLe (a b : Str) : Bool :=
  Nat.blt a.length b.length || (a.length == b.length && !(strLt b a))

/-- Insertion into a `le`-sorted list. -/
def insertLe (le : Str → Str → Bool) (x : Str) : List Str → List Str
  | [] => [x]
  | y :: ys => if le x y then x :: y :: ys else y :: insertLe le x ys

/-- Insertion sort by `le`. -/
def sortLe (le : Str → Str → Bool) (l : List Str) : List Str :=
  l.foldr (insertLe le) []

/-- The complete run of `main` on an already-assembled `data` dictionary:
generate, filter with the hard-coded band 6..20, limit to `maxN`, and
order by (length, lexicographic) for output. -/
def fullPipeline (ord : List Str → List Str) (rng : List Nat)
    (data : DataIn) (maxN : Int) : List Str :=
  sortLe pwdLe
    (limitStep ord (analyzeAndFilter (generateSmartCombinations ord rng data) 6 20) maxN)

/-- `save_to_file` of `old_versions/Var3.py`, up to the point where the
sorted password list is written: when the list exceeds `maxp`, take the
short-candidate, special-bearing and letter+digit strata (quotas 100000,
200000, 300000), then draw `maxp - |sampled|` of the remainder with
`random.sample`, which raises `ValueError` on a negative count (modelled
as `.error`). -/
def var3Sample (ord : List Str → List Str) (passwords : List Str)
    (maxp : Int) : Except String (List Str) :=
  let pl := ord passwords
  if (pl.length : Int) > maxp then
    let s1 := supdate [] ((pl.filter (fun p => Nat.ble p.length 8)).take 100000)
    let s2 := supdate s1 ((pl.filter (fun p => p.any (· ∈ filterSpecials))).take 200000)
    let s3 := supdate s2 ((pl.filter (fun p =>
                p.any (· ∈ "0123456789".data) && p.any Char.isAlpha)).take 300000)
    let remaining := pl.filter (fun p => !(s3.contains p))
    if (remaining.length : Int) > maxp - (s3.length : Int) then
      let k : Int := maxp - (s3.length : Int)
      if k < 0 then Except.error "ValueError: sample larger than population or is negative"
      else Except.ok (sortLe (fun a b => !(strLt b a)) (supdate s3 ((ord remaining).take k.toNat)))
    else Except.ok (sortLe (fun a b => !(strLt b a)) s3)
  else Except.ok (sortLe (fun a b => !(strLt b a)) pl)

/-! ### Basic lemmas about the set model and the sort -/

lemma mem_sadd {s : List Str} {x y : Str} : x ∈ sadd s y ↔ x ∈ s ∨ x = y := by
  unfold sadd
  split
  · rename_i h
    constructor
    · exact Or.inl
    · rintro (hx | rfl)
      · exact hx
      · exact h
  · simp [List.mem_append]

lemma mem_sadd_left {s : List Str} {x y : Str} (h : x ∈ s) : x ∈ sadd s y :=
  mem_sadd.2 (Or.inl h)

lemma mem_supdate {s l : List Str} {x : Str} : x ∈ supdate s l ↔ x ∈ s ∨ x ∈ l := by
  induction l generalizing s with
  | nil => simp [supdate]
  | cons a t ih =>
      show x ∈ supdate (sadd s a) t ↔ _
      rw [ih, mem_sadd]
      simp [or_assoc, List.mem_cons]

lemma mem_supdate_left {s l : List Str} {x : Str} (h : x ∈ s) : x ∈ supdate s l :=
  mem_supdate.2 (Or.inl h)

lemma length_sadd_le (s : List Str) (x : Str) : (sadd s x).length ≤ s.length + 1 := by
  unfold sadd
  split
  · omega
  · simp

lemma length_supdate_le (s l : List Str) : (supdate s l).length ≤ s.length + l.length := by
  induction l generalizing s with
  | nil => simp [supdate]
  | cons a t ih =>
      show (supdate (sadd s a) t).length ≤ _
      calc (supdate (sadd s a) t).length ≤ (sadd s a).length + t.length := ih _
        _ ≤ s.length + 1 + t.length := by
              have := length_sadd_le s a
              omega
        _ = s.length + (a :: t).length := by simp; omega

lemma length_insertLe (le : Str → Str → Bool) (x : Str) (l : List Str) :
    (insertLe le x l).length = l.length + 1 := by
  induction l with
  | nil => rfl
  | cons y t ih =>
      unfold insertLe
      split
      · simp
      · simp [ih]

lemma length_sortLe (le : Str → Str → Bool) (l : List Str) :
    (sortLe le l).length = l.length := by
  induction l with
  | nil => rfl
  | cons y t ih =>
      show (insertLe le y (sortLe le t)).length = _
      rw [length_insertLe, ih]
      rfl

lemma mem_insertLe {le : Str → Str → Bool} {x y : Str} {l : List Str} :
    x ∈ insertLe le y l ↔ x = y ∨ x ∈ l := by
  induction l with
  | nil => simp [insertLe]
  | cons z t ih =>
      unfold insertLe
      split
      · simp [List.mem_cons]
      · rw [List.mem_cons, ih, List.mem_cons]
        tauto

lemma mem_sortLe {le : Str → Str → Bool} {x : Str} {l : List Str} :
    x ∈ sortLe le l ↔ x ∈ l := by
  induction l with
  | nil => simp [sortLe]
  | cons y t ih =>
      show x ∈ insertLe le y (sortLe le t) ↔ _
      rw [mem_insertLe, ih, List.mem_cons]

/-- A fold whose step preserves a predicate preserves it overall. -/
lemma foldl_preserve {α β : Type} (P : β → Prop) (f : β → α → β) (l : List α)
    (hstep : ∀ s a, a ∈ l → P s → P (f s a)) : ∀ s, P s → P (l.foldl f s) := by
  induction l with
  | nil => intro s h; exact h
  | cons a t ih =>
      intro s h
      exact ih (fun s b hb hs => hstep s b (List.mem_cons_of_mem _ hb) hs) _
        (hstep s a (List.mem_cons_self a t) h)

/-! ### C5, C10, C6 — date parsing -/

/-- C5: date parsing strips non-digits and branches on the digit count:
8 digits gives positional day/month/year/year-short slices (so
`15061990` parses to day `15`, month `06`, year `1990`, year-short
`90`); 6 digits gives day, month, and `20` prepended to the last two
digits as the year; 4 digits gives day and month only, with no year. -/
theorem claim_c5 :
    (∀ s : Str, (s.filter Char.isDigit).length = 8 →
      parseHumanDate s =
        ⟨some (pySlice (s.filter Char.isDigit) 0 2),
         some (pySlice (s.filter Char.isDigit) 2 4),
         some (pySlice (s.filter Char.isDigit) 4 8),
         some (pySlice (s.filter Char.isDigit) 6 8),
         some (s.filter Char.isDigit)⟩)
    ∧ (∀ s : Str, (s.filter Char.isDigit).length = 6 →
      (parseHumanDate s).day = some (pySlice (s.filter Char.isDigit) 0 2)
      ∧ (parseHumanDate s).month = some (pySlice (s.filter Char.isDigit) 2 4)
      ∧ (parseHumanDate s).year = some ('2' :: '0' :: pySlice (s.filter Char.isDigit) 4 6))
    ∧ (∀ s : Str, (s.filter Char.isDigit).length = 4 →
      (parseHumanDate s).day = some (pySlice (s.filter Char.isDigit) 0 2)
      ∧ (parseHumanDate s).month = some (pySlice (s.filter Char.isDigit) 2 4)
      ∧ (parseHumanDate s).year = none ∧ (parseHumanDate s).year_short = none)
    ∧ parseHumanDate "15061990".data =
        ⟨some "15".data, some "06".data, some "1990".data, some "90".data,
         some "15061990".data⟩ := by
  refine ⟨?_, ?_, ?_, by decide⟩
  · intro s h
    have hs : s ≠ [] := by
      intro he
      subst he
      simp at h
    simp [parseHumanDate, hs, h]
  · intro s h
    have hs : s ≠ [] := by
      intro he
      subst he
      simp at h
    simp [parseHumanDate, hs, h]
  · intro s h
    have hs : s ≠ [] := by
      intro he
      subst he
      simp at h
    simp [parseHumanDate, hs, h]

/-- Witness for C5 at the concrete input `15061990`. -/
theorem claim_c5_witness :
    parseHumanDate "15061990".data =
      ⟨some (pySlice ("15061990".data.filter Char.isDigit) 0 2),
       some (pySlice ("15061990".data.filter Char.isDigit) 2 4),
       some (pySlice ("15061990".data.filter Char.isDigit) 4 8),
       some (pySlice ("15061990".data.filter Char.isDigit) 6 8),
       some ("15061990".data.filter Char.isDigit)⟩ :=
  claim_c5.1 "15061990".data (by decide)

/-- C10: date parsing slices positionally and validates nothing: the
US-format `12/31/1999` is silently parsed with month `31`, and every
8-digit input has all four components populated from the positional
slices, whatever their values. -/
theorem claim_c10 :
    parseHumanDate "12/31/1999".data =
      ⟨some "12".data, some "31".data, some "1999".data, some "99".data,
       some "12311999".data⟩
    ∧ (∀ s : Str, (s.filter Char.isDigit).length = 8 →
        (parseHumanDate s).month = some (pySlice (s.filter Char.isDigit) 2 4)
        ∧ (parseHumanDate s).day = some (pySlice (s.filter Char.isDigit) 0 2)
        ∧ (parseHumanDate s).year = some (pySlice (s.filter Char.isDigit) 4 8)
        ∧ (parseHumanDate s).year_short = some (pySlice (s.filter Char.isDigit) 6 8)) := by
  refine ⟨by decide, ?_⟩
  intro s h
  have hs : s ≠ [] := by
    intro he
    subst he
    simp at h
  simp [parseHumanDate, hs, h]

/-- Witness for C10 at the concrete 8-digit input `99999999`. -/
theorem claim_c10_witness :
    (parseHumanDate "99999999".data).month =
      some (pySlice ("99999999".data.filter Char.isDigit) 2 4) :=
  (claim_c10.2 "99999999".data (by decide)).1

/-- The generation core never reads the `full` component of the parsed
date, so two parses agreeing on day/month/year/year-short are
interchangeable. -/
lemma generateWithDate_full_irrel (ord : List Str → List Str) (rng : List Nat)
    (data : DataIn) (d m y ys f f' : Option Str) :
    generateWithDate ord rng data ⟨d, m, y, ys, f⟩
      = generateWithDate ord rng data ⟨d, m, y, ys, f'⟩ := rfl

/-- The generation core never reads the raw `birth_date` field (only its
parse), so two data records differing only there generate alike from
equal date components. -/
lemma generateWithDate_birth_irrel (ord : List Str → List Str) (rng : List Nat)
    (data : DataIn) (b b' : Str) (di : DateInfo) :
    generateWithDate ord rng { data with birth_date := b } di
      = generateWithDate ord rng { data with birth_date := b' } di := rfl

/-- C6: for every input string that is empty or unparsable as a date —
that is, whose digit-stripped form has a length other than 8, 6, or 4 —
parsing yields empty day/month/year/year-short components (every `.get`
of them is the empty string), no exception is raised, and the
generation pipeline treats the result exactly like an empty birth date;
in particular the empty string parses to the empty dictionary and
`"abcd"` to all-empty components. -/
theorem claim_c6 :
    (∀ s : Str, (s.filter Char.isDigit).length ≠ 8 →
      (s.filter Char.isDigit).length ≠ 6 → (s.filter Char.isDigit).length ≠ 4 →
      (parseHumanDate s).day.getD [] = [] ∧ (parseHumanDate s).month.getD [] = []
      ∧ (parseHumanDate s).year.getD [] = []
      ∧ (parseHumanDate s).year_short.getD [] = [])
    ∧ (∀ (s : Str) (data : DataIn) (ord : List Str → List Str) (rng : List Nat),
        (s.filter Char.isDigit).length ≠ 8 → (s.filter Char.isDigit).length ≠ 6 →
        (s.filter Char.isDigit).length ≠ 4 →
        generateSmartCombinations ord rng { data with birth_date := s }
          = generateSmartCombinations ord rng { data with birth_date := [] })
    ∧ parseHumanDate [] = DateInfo.empty
    ∧ ((parseHumanDate "abcd".data).day.getD [] = []
       ∧ (parseHumanDate "abcd".data).month.getD [] = []
       ∧ (parseHumanDate "abcd".data).year.getD [] = []
       ∧ (parseHumanDate "abcd".data).year_short.getD [] = []) := by
  have hparse : ∀ s : Str, (s.filter Char.isDigit).length ≠ 8 →
      (s.filter Char.isDigit).length ≠ 6 → (s.filter Char.isDigit).length ≠ 4 →
      parseHumanDate s = ⟨none, none, none, none, (parseHumanDate s).full⟩ := by
    intro s h8 h6 h4
    by_cases hs : s = []
    · subst hs
      rfl
    · simp only [parseHumanDate]
      rw [if_neg hs, if_neg h8, if_neg h6, if_neg h4]
  refine ⟨?_, ?_, by decide, by decide⟩
  · intro s h8 h6 h4
    rw [hparse s h8 h6 h4]
    exact ⟨rfl, rfl, rfl, rfl⟩
  · intro s data ord rng h8 h6 h4
    show generateWithDate ord rng { data with birth_date := s } (parseHumanDate s)
        = generateWithDate ord rng { data with birth_date := [] } (parseHumanDate [])
    rw [hparse s h8 h6 h4]
    exact (generateWithDate_full_irrel ord rng _ none none none none _ none).trans
      (generateWithDate_birth_irrel ord rng data s [] ⟨none, none, none, none, none⟩)

/-- A concrete profile for the C6 witness. -/
def c6data : DataIn := { first_name := "john".data, last_name := "doe".data }

/-- Witness for C6 at the concrete unparsable input `"abcd"`. -/
theorem claim_c6_witness :
    ((parseHumanDate "abcd".data).day.getD [] = []
     ∧ (parseHumanDate "abcd".data).month.getD [] = []
     ∧ (parseHumanDate "abcd".data).year.getD [] = []
     ∧ (parseHumanDate "abcd".data).year_short.getD [] = [])
    ∧ generateSmartCombinations id [] { c6data with birth_date := "abcd".data }
        = generateSmartCombinations id [] { c6data with birth_date := [] } :=
  ⟨claim_c6.1 "abcd".data (by decide) (by decide) (by decide),
   claim_c6.2.1 "abcd".data c6data id [] (by decide) (by decide) (by decide)⟩

/-! ### C7 — missing-slot templates are skipped -/

/-- C7: a template whose formatting hits a missing slot contributes
nothing to the expansion — removing it from the pattern table leaves the
fold unchanged, so no candidate and no partial output arise from it and
the remaining templates expand exactly as before. -/
theorem claim_c7 (addN : Bool) (vars : List (String × Str)) (pat : List PatItem)
    (h : formatPattern vars pat = none) (pre post : List (List PatItem))
    (s : List Str) :
    (pre ++ pat :: post).foldl (applyPattern addN vars) s
      = (pre ++ post).foldl (applyPattern addN vars) s := by
  rw [List.foldl_append, List.foldl_append, List.foldl_cons]
  have hid : applyPattern addN vars (pre.foldl (applyPattern addN vars) s) pat
      = pre.foldl (applyPattern addN vars) s := by
    unfold applyPattern
    rw [h]
  rw [hid]

/-- The bindings of a john/doe profile with no spouse field. -/
def c7vars : List (String × Str) :=
  buildVars "john".data "doe".data [] (parseHumanDate []) [] {}

/-- Witness for C7: the pattern referencing `spouse_initial` on a
profile without a spouse expands to nothing. -/
theorem claim_c7_witness :
    ([[PatItem.var "first", PatItem.var "spouse_initial", PatItem.var "year"]] :
        List (List PatItem)).foldl (applyPattern true c7vars) []
      = ([] : List (List PatItem)).foldl (applyPattern true c7vars) [] :=
  claim_c7 true c7vars [PatItem.var "first", PatItem.var "spouse_initial", PatItem.var "year"]
    (by decide) [] [] []

/-! ### Monotonicity of the mutation stages -/

lemma mem_foldl_sadd_steps {α : Type} (f : List Str → α → List Str)
    (hf : ∀ s a, ∀ x ∈ s, x ∈ f s a) (l : List α) {x : Str} {s : List Str}
    (h : x ∈ s) : x ∈ l.foldl f s := by
  induction l generalizing s with
  | nil => exact h
  | cons a t ih => exact ih (hf s a x h)

lemma mem_applyPattern_of_mem {addN : Bool} {vars : List (String × Str)}
    {s : List Str} {x : Str} (pat : List PatItem) (h : x ∈ s) :
    x ∈ applyPattern addN vars s pat := by
  unfold applyPattern
  cases hf : formatPattern vars pat with
  | none => exact h
  | some pwd =>
      dsimp only
      split
      · have h3 : x ∈ sadd (sadd (sadd s pwd) (pyTitle pwd)) (pyCapitalize pwd) :=
          mem_sadd_left (mem_sadd_left (mem_sadd_left h))
        split
        · apply mem_foldl_sadd_steps _ _ _ h3
          intro s' num y hy
          dsimp only
          split
          · split
            · exact mem_sadd_left (mem_sadd_left hy)
            · exact mem_sadd_left hy
          · exact mem_sadd_left hy
        · exact h3
      · exact h

lemma mem_stageNumbers_of_mem {ord : List Str → List Str} {di : DateInfo}
    {b : Bool} {s : List Str} {x : Str} (h : x ∈ s) :
    x ∈ stageNumbers ord di b s := by
  unfold stageNumbers
  split
  · exact mem_supdate_left h
  · exact h

lemma mem_stageSpecials_of_mem {ord : List Str → List Str} {specials : List Str}
    {b : Bool} {s : List Str} {x : Str} (h : x ∈ s) :
    x ∈ stageSpecials ord specials b s := by
  unfold stageSpecials
  split
  · exact mem_supdate_left h
  · exact h

lemma mem_stageLeet_of_mem {ord : List Str → List Str} {rng : List Nat}
    {b : Bool} {s : List Str} {x : Str} (h : x ∈ s) :
    x ∈ stageLeet ord rng b s := by
  unfold stageLeet
  split
  · exact mem_supdate_left h
  · exact h

/-! ### C8 — stages only union; a disabled stage is a no-op -/

/-- C8: each mutation stage (numeric, special-character, leet) only
unions new strings into the accumulated set — every member of the set
before a stage is still a member after it — and with its enable flag
false the stage returns the set exactly unchanged. -/
theorem claim_c8 (ord : List Str → List Str) (di : DateInfo) (rng : List Nat)
    (specials : List Str) (s : List Str) (b : Bool) :
    ((∀ x ∈ s, x ∈ stageNumbers ord di b s) ∧ stageNumbers ord di false s = s)
    ∧ ((∀ x ∈ s, x ∈ stageSpecials ord specials b s)
       ∧ stageSpecials ord specials false s = s)
    ∧ ((∀ x ∈ s, x ∈ stageLeet ord rng b s) ∧ stageLeet ord rng false s = s) :=
  ⟨⟨fun _ hx => mem_stageNumbers_of_mem hx, rfl⟩,
   ⟨fun _ hx => mem_stageSpecials_of_mem hx, rfl⟩,
   ⟨fun _ hx => mem_stageLeet_of_mem hx, rfl⟩⟩

/-- Witness for C8: a concrete member survives an enabled numeric stage,
and a disabled numeric stage is the identity, on a one-element set. -/
theorem claim_c8_witness :
    ("aa".data ∈ stageNumbers id DateInfo.empty true ["aa".data])
    ∧ stageNumbers id DateInfo.empty false ["aa".data] = ["aa".data] :=
  ⟨(claim_c8 id DateInfo.empty [] [] ["aa".data] true).1.1 "aa".data (by decide),
   (claim_c8 id DateInfo.empty [] [] ["aa".data] true).1.2⟩

/-! ### C3 — no eager configuration validation exists -/

/-- Counterexample to C3: with min_length 10 > max_length 5 the engine
does not reject — the filter runs to completion and silently returns the
empty set — and with a non-positive max_output_size the limiting step
silently passes everything through; no error value exists anywhere on
these paths. -/
theorem claim_c3_counterexample :
    analyzeAndFilter ["johndoe".data] 10 5 = []
    ∧ limitStep id ["johndoe".data] (-3) = ["johndoe".data]
    ∧ analyzeAndFilter ["johndoe".data] 6 20 = ["johndoe".data] := by
  decide

/-- C3 (amended): the engine performs no configuration validation at
all: a band with min_length > max_length silently filters every
candidate away, and a non-positive max_output_size silently disables
the size limit; neither is rejected with an error. -/
theorem claim_c3 :
    (∀ (pwds : List Str) (minL maxL : Nat), maxL < minL →
      analyzeAndFilter pwds minL maxL = [])
    ∧ (∀ (ord : List Str → List Str) (l : List Str) (m : Int), m ≤ 0 →
      limitStep ord l m = l) := by
  constructor
  · intro pwds minL maxL h
    unfold analyzeAndFilter
    rw [List.filter_eq_nil_iff]
    intro a _
    simp only [filterPred, Bool.and_eq_true, Nat.ble_eq]
    rintro ⟨⟨⟨⟨h1, h2⟩, _⟩, _⟩, _⟩
    omega
  · intro ord l m hm
    unfold limitStep
    rw [if_neg]
    rintro ⟨h1, _⟩
    omega

/-- Witness for C3 at a concrete inverted band and a concrete
non-positive limit. -/
theorem claim_c3_witness :
    analyzeAndFilter ["a".data] 7 3 = [] ∧ limitStep id ["b".data] (-1) = ["b".data] :=
  ⟨claim_c3.1 ["a".data] 7 3 (by decide), claim_c3.2 id ["b".data] (-1) (by decide)⟩

/-! ### C4 — size limiting -/

/-- Counterexample to C4: three short candidates with maximum 2 make the
Var3 stratified sampler's short-stratum quota alone exceed the maximum,
so `random.sample` is called with a negative count and raises
`ValueError` instead of producing a bounded result. -/
theorem claim_c4_counterexample :
    var3Sample id ["aa".data, "bb".data, "cc".data] 2
      = Except.error "ValueError: sample larger than population or is negative"
    ∧ (0 : Int) < 2 :=
  ⟨rfl, by decide⟩

lemma var3_branch_len_le (le0 : Str → Str → Bool) (s3 rem : List Str) (m : Int)
    (hk : ¬ m - (s3.length : Int) < 0) :
    (((sortLe le0 (supdate s3 (rem.take (m - (s3.length : Int)).toNat))).length : Int))
      ≤ m := by
  rw [length_sortLe]
  have h1 := length_supdate_le s3 (rem.take (m - (s3.length : Int)).toNat)
  have h2 : (rem.take (m - (s3.length : Int)).toNat).length
      ≤ (m - (s3.length : Int)).toNat := List.length_take_le _ _
  omega

/-- C4 (amended): the main CLI truncation always returns at most the
maximum for every positive maximum, and the Var3 stratified sampler
respects the maximum whenever it returns at all — but, as the
counterexample shows, it can instead raise `ValueError` when the
stratum quotas alone exceed the maximum. -/
theorem claim_c4 :
    (∀ (ord : List Str → List Str) (filtered : List Str) (maxN : Int),
      0 < maxN → ((limitStep ord filtered maxN).length : Int) ≤ maxN)
    ∧ (∀ (ord : List Str → List Str) (ps : List Str) (m : Int) (out : List Str),
      var3Sample ord ps m = Except.ok out → ((out.length : Int) ≤ m)) := by
  constructor
  · intro ord filtered maxN h
    unfold limitStep
    split
    · have h1 := length_supdate_le [] ((ord filtered).take maxN.toNat)
      have h2 : ((ord filtered).take maxN.toNat).length ≤ maxN.toNat :=
        List.length_take_le _ _
      simp only [List.length_nil] at h1
      omega
    · rename_i hc
      omega
  · intro ord ps m out h
    simp only [var3Sample] at h
    split at h
    · split at h
      · split at h
        · exact absurd h (by simp)
        · rename_i h1 h2 h3
          rw [Except.ok.injEq] at h
          subst h
          exact var3_branch_len_le _ _ _ _ h3
      · rename_i h1 h2
        rw [Except.ok.injEq] at h
        subst h
        rw [length_sortLe]
        omega
    · rename_i h1
      rw [Except.ok.injEq] at h
      subst h
      rw [length_sortLe]
      omega

/-- Witness for C4: concrete bounded truncation, and a concrete
successful Var3 sampling run staying within its maximum. -/
theorem claim_c4_witness :
    ((limitStep id ["aa".data, "bb".data] 1).length : Int) ≤ 1
    ∧ (((sortLe (fun a b => !(strLt b a)) ["aa".data]).length : Int)) ≤ 5 :=
  ⟨claim_c4.1 id ["aa".data, "bb".data] 1 (by decide),
   claim_c4.2 id ["aa".data] 5 (sortLe (fun a b => !(strLt b a)) ["aa".data]) rfl⟩

/-! ### C9 — the 6..20 band is not rechecked on number-appended variants -/

/-- A profile whose bare `first + last` expansion has length exactly 20. -/
def c9data : DataIn :=
  { first_name := "alexandrina".data, last_name := "petersons".data }

/-- C9: the 6..20 soft band is checked only on the bare substitution
result; the common-number-appended variants of an accepted candidate are
added without recheck, so this profile's first-generation candidate
`alexandrinapetersons123` of length 23 > 20 is returned by
`generate_smart_combinations`. -/
theorem claim_c9 :
    "alexandrinapetersons123".data ∈ generateSmartCombinations id [] c9data
    ∧ 20 < ("alexandrinapetersons123".data).length := by
  constructor
  · simp only [generateSmartCombinations, generateWithDate]
    apply mem_supdate_left
    apply mem_stageLeet_of_mem
    apply mem_stageSpecials_of_mem
    apply mem_stageNumbers_of_mem
    apply mem_supdate_left
    have hsplit : humanPatterns
        = [PatItem.var "first", PatItem.var "last"] :: humanPatterns.tail := rfl
    rw [hsplit, List.foldl_cons]
    apply mem_foldl_sadd_steps _ (fun s a x hx => mem_applyPattern_of_mem a hx)
    decide
  · decide

/-! ### C1 — determinism -/

/-- `ord` is a possible `list(set)` enumeration: a permutation of the
underlying collection. -/
def Reorders (ord : List Str → List Str) : Prop :=
  ∀ l : List Str, (ord l).Perm l

/-- A possible run of the complete pipeline on fixed profile data, fixed
random stream (the seed), and fixed size limit: some set-enumeration
order — which Python does not determine from the profile, the
configuration, or the `random` seed — produced the output. -/
def PyRun (data : DataIn) (rng : List Nat) (maxN : Int) (out : List Str) : Prop :=
  ∃ ord, Reorders ord ∧ out = fullPipeline ord rng data maxN

/-- A profile on which the final truncation step is order-sensitive. -/
def c1data : DataIn :=
  { first_name := "john".data, last_name := "doe".data, add_numbers := false }

set_option maxRecDepth 40000 in
/-- Counterexample to C1: with profile, configuration, and random seed
all fixed, two possible runs of the pipeline (differing only in the
set-enumeration order, which no seed fixes) produce different output
sequences, because the size truncation takes a prefix of the un-ordered
enumeration before sorting. -/
theorem claim_c1_counterexample :
    PyRun c1data [] 3 (fullPipeline id [] c1data 3)
    ∧ PyRun c1data [] 3 (fullPipeline List.reverse [] c1data 3)
    ∧ fullPipeline id [] c1data 3 ≠ fullPipeline List.reverse [] c1data 3 :=
  ⟨⟨id, fun l => List.Perm.refl l, rfl⟩,
   ⟨List.reverse, fun l => l.reverse_perm, rfl⟩,
   by decide⟩

/-- C1 (amended): the pipeline is deterministic only once the
set-enumeration order is fixed along with the profile, the
configuration, and the random seed: two runs with all four equal produce
identical output sequences. -/
theorem claim_c1 (data : DataIn) (rng : List Nat) (maxN : Int)
    (ord : List Str → List Str) (out₁ out₂ : List Str)
    (h₁ : out₁ = fullPipeline ord rng data maxN)
    (h₂ : out₂ = fullPipeline ord rng data maxN) : out₁ = out₂ :=
  h₁.trans h₂.symm

/-- Witness for C1 at a concrete profile, seed, limit, and order. -/
theorem claim_c1_witness :
    fullPipeline id [] c1data 3 = fullPipeline id [] c1data 3 :=
  claim_c1 c1data [] 3 id _ _ rfl rfl

/-! ### C2 — special characters with `use_specials = false` -/

/-- Every character of the configured special set. -/
def commonSpecialChars : Str := commonSpecials.flatten

/-- The configured special characters that occur as literal text in the
fixed pattern, example, and leet tables of the generator. -/
def litTableSpecials : Str := ['!', '@', '#', '$', '.', '_']

/-- All characters occurring verbatim in some input field of `data`. -/
def inputFieldChars (data : DataIn) : Str :=
  data.first_name ++ data.last_name ++ data.nickname ++ data.birth_date
  ++ data.spouse_name.getD [] ++ data.child_name.getD [] ++ data.pet_name.getD []

/-- A profile containing no special characters, with specials disabled. -/
def c2data : DataIn :=
  { first_name := "john".data, last_name := "doe".data, add_numbers := false }

set_option maxRecDepth 40000 in
/-- Counterexample to C2: with `use_specials = false` the pipeline still
emits `john!23` — built from the literal `!23` of
`generate_common_passwords` — although `!` belongs to the configured
special set and occurs in no input field. -/
theorem claim_c2_counterexample :
    "john!23".data ∈ fullPipeline id [] c2data 5000
    ∧ ['!'] ∈ commonSpecials
    ∧ c2data.use_specials = false
    ∧ '!' ∉ inputFieldChars c2data := by
  refine ⟨by decide, by decide, rfl, by decide⟩

/-- The provenance invariant: every configured special character of `s`
occurs verbatim in an input field or in the generator's literal tables. -/
def OkStr (data : DataIn) (s : Str) : Prop :=
  ∀ c ∈ s, c ∈ commonSpecialChars → c ∈ inputFieldChars data ∨ c ∈ litTableSpecials

/-- The invariant lifted to candidate sets. -/
def OkSet (data : DataIn) (S : List Str) : Prop := ∀ pwd ∈ S, OkStr data pwd

lemma lookup_pair_mem {α β : Type} [BEq α] (l : List (α × β)) (a : α) (b : β)
    (h : List.lookup a l = some b) : ∃ k, (k, b) ∈ l ∧ (a == k) = true := by
  induction l with
  | nil => simp [List.lookup] at h
  | cons p t ih =>
      cases p with
      | mk k v =>
          simp only [List.lookup] at h
          split at h
          · rename_i hk
            injection h with h'
            subst h'
            exact ⟨k, List.mem_cons_self _ _, hk⟩
          · rcases ih h with ⟨k', hk', hbeq⟩
            exact ⟨k', List.mem_cons_of_mem _ hk', hbeq⟩

lemma pyLowerChar_special {c : Char} (h : pyLowerChar c ∈ commonSpecialChars) :
    pyLowerChar c = c := by
  unfold pyLowerChar at h ⊢
  cases hl : List.lookup c lowerTable with
  | none => simp
  | some d =>
      rw [hl] at h
      simp only [Option.getD_some] at h ⊢
      exfalso
      rcases lookup_pair_mem _ _ _ hl with ⟨k, hk, _⟩
      have hall : ∀ p ∈ lowerTable, p.2 ∉ commonSpecialChars := by decide
      exact hall _ hk h

lemma pyUpperChar_special {c : Char} (h : pyUpperChar c ∈ commonSpecialChars) :
    pyUpperChar c = c := by
  unfold pyUpperChar at h ⊢
  cases hl : List.lookup c upperTable with
  | none => simp
  | some d =>
      rw [hl] at h
      simp only [Option.getD_some] at h ⊢
      exfalso
      rcases lookup_pair_mem _ _ _ hl with ⟨k, hk, _⟩
      have hall : ∀ p ∈ upperTable, p.2 ∉ commonSpecialChars := by decide
      exact hall _ hk h

lemma okStr_append {data : DataIn} {a b : Str} (ha : OkStr data a)
    (hb : OkStr data b) : OkStr data (a ++ b) := by
  intro c hc hsp
  rcases List.mem_append.1 hc with h | h
  · exact ha c h hsp
  · exact hb c h hsp

lemma okStr_of_subset {data : DataIn} {a b : Str} (hsub : ∀ c ∈ a, c ∈ b)
    (hb : OkStr data b) : OkStr data a :=
  fun c hc => hb c (hsub c hc)

lemma okStr_nil {data : DataIn} : OkStr data [] := by
  intro c hc
  cases hc

lemma okStr_lit {data : DataIn} {s : Str}
    (h : ∀ c ∈ s, c ∈ commonSpecialChars → c ∈ litTableSpecials) : OkStr data s :=
  fun c hc hsp => Or.inr (h c hc hsp)

lemma okStr_nospecial {data : DataIn} {s : Str}
    (h : ∀ c ∈ s, c ∉ commonSpecialChars) : OkStr data s :=
  fun c hc hsp => absurd hsp (h c hc)

lemma okStr_pyLower {data : DataIn} {s : Str} (h : OkStr data s) :
    OkStr data (pyLower s) := by
  intro c hc hsp
  rcases List.mem_map.1 hc with ⟨c0, hc0, rfl⟩
  have he := pyLowerChar_special hsp
  rw [he] at hsp ⊢
  exact h c0 hc0 hsp

lemma mem_pyTitleAux {c' : Char} :
    ∀ (b : Bool) (s : Str), c' ∈ pyTitleAux b s →
      ∃ c ∈ s, c' = c ∨ c' = pyLowerChar c ∨ c' = pyUpperChar c := by
  intro b s
  induction s generalizing b with
  | nil => intro h; simp [pyTitleAux] at h
  | cons c t ih =>
      intro h
      simp only [pyTitleAux] at h
      split at h
      · rcases List.mem_cons.1 h with he | ht
        · refine ⟨c, List.mem_cons_self _ _, ?_⟩
          split at he
          · exact Or.inr (Or.inl he)
          · exact Or.inr (Or.inr he)
        · rcases ih true ht with ⟨c0, hc0, hca⟩
          exact ⟨c0, List.mem_cons_of_mem _ hc0, hca⟩
      · rcases List.mem_cons.1 h with he | ht
        · exact ⟨c, List.mem_cons_self _ _, Or.inl he⟩
        · rcases ih false ht with ⟨c0, hc0, hca⟩
          exact ⟨c0, List.mem_cons_of_mem _ hc0, hca⟩

lemma okStr_case_image {data : DataIn} {s : Str} (h : OkStr data s) {c' c : Char}
    (hc : c ∈ s) (hca : c' = c ∨ c' = pyLowerChar c ∨ c' = pyUpperChar c) :
    c' ∈ commonSpecialChars → c' ∈ inputFieldChars data ∨ c' ∈ litTableSpecials := by
  intro hsp
  rcases hca with rfl | rfl | rfl
  · exact h _ hc hsp
  · have he := pyLowerChar_special hsp
    rw [he] at hsp ⊢
    exact h _ hc hsp
  · have he := pyUpperChar_special hsp
    rw [he] at hsp ⊢
    exact h _ hc hsp

lemma okStr_pyTitle {data : DataIn} {s : Str} (h : OkStr data s) :
    OkStr data (pyTitle s) := by
  intro c' hc'
  rcases mem_pyTitleAux false s hc' with ⟨c, hc, hca⟩
  exact okStr_case_image h hc hca

lemma okStr_tail {data : DataIn} {c : Char} {s : Str} (h : OkStr data (c :: s)) :
    OkStr data s :=
  fun x hx => h x (List.mem_cons_of_mem _ hx)

lemma okStr_pyCapitalize {data : DataIn} {s : Str} (h : OkStr data s) :
    OkStr data (pyCapitalize s) := by
  cases s with
  | nil => exact okStr_nil
  | cons c t =>
      intro c' hc'
      rcases List.mem_cons.1 hc' with he | ht
      · subst he
        exact okStr_case_image h (List.mem_cons_self _ _) (Or.inr (Or.inr rfl))
      · exact okStr_pyLower (okStr_tail h) _ ht

lemma mem_pySplit {p : Char → Bool} :
    ∀ {s part : Str}, part ∈ pySplit p s → ∀ c ∈ part, c ∈ s := by
  intro s
  induction s with
  | nil =>
      intro part hp c hc
      simp [pySplit] at hp
      subst hp
      cases hc
  | cons c0 rest ih =>
      intro part hp c hc
      simp only [pySplit] at hp
      split at hp
      · rcases List.mem_cons.1 hp with he | ht
        · subst he
          cases hc
        · exact List.mem_cons_of_mem _ (ih ht c hc)
      · rename_i hpc
        cases hm : pySplit p rest with
        | nil =>
            rw [hm] at hp
            simp at hp
            subst hp
            rcases List.mem_cons.1 hc with rfl | h0
            · exact List.mem_cons_self _ _
            · cases h0
        | cons hh tt =>
            rw [hm] at hp
            rcases List.mem_cons.1 hp with he | ht
            · subst he
              rcases List.mem_cons.1 hc with rfl | h0
              · exact List.mem_cons_self _ _
              · exact List.mem_cons_of_mem _ (ih (hm ▸ List.mem_cons_self hh tt) c h0)
            · exact List.mem_cons_of_mem _ (ih (hm ▸ List.mem_cons_of_mem hh ht) c hc)

lemma okStr_split_part {data : DataIn} {p : Char → Bool} {pwd : Str} {i : Nat}
    (h : OkStr data pwd) : OkStr data ((pySplit p pwd)[i]?.getD []) := by
  cases hg : (pySplit p pwd)[i]? with
  | none => exact okStr_nil
  | some part =>
      simp only [Option.getD_some]
      exact okStr_of_subset (mem_pySplit (List.getElem?_mem hg)) h

lemma pyReplaceChar_cons (a : Char) (t : Str) (c : Char) (r : Str) :
    pyReplaceChar (a :: t) c r
      = if a = c then r ++ pyReplaceChar t c r else a :: pyReplaceChar t c r := rfl

lemma mem_pyReplaceChar {s : Str} {c : Char} {r : Str} {x : Char} :
    x ∈ pyReplaceChar s c r → x ∈ s ∨ x ∈ r := by
  induction s with
  | nil => intro h; cases h
  | cons a t ih =>
      intro h
      rw [pyReplaceChar_cons] at h
      split at h
      · rcases List.mem_append.1 h with hr | ht
        · exact Or.inr hr
        · rcases ih ht with h1 | h1
          · exact Or.inl (List.mem_cons_of_mem _ h1)
          · exact Or.inr h1
      · rcases List.mem_cons.1 h with rfl | ht
        · exact Or.inl (List.mem_cons_self _ _)
        · rcases ih ht with h1 | h1
          · exact Or.inl (List.mem_cons_of_mem _ h1)
          · exact Or.inr h1

lemma mem_pySlice {s : Str} {a b : Nat} {c : Char} (h : c ∈ pySlice s a b) : c ∈ s :=
  List.drop_subset a s (List.take_subset _ _ h)

lemma okStr_dateFields (data : DataIn) :
    OkStr data ((parseHumanDate data.birth_date).day.getD [])
    ∧ OkStr data ((parseHumanDate data.birth_date).month.getD [])
    ∧ OkStr data ((parseHumanDate data.birth_date).year.getD [])
    ∧ OkStr data ((parseHumanDate data.birth_date).year_short.getD []) := by
  have hb : ∀ c ∈ data.birth_date, c ∈ inputFieldChars data := by
    intro c h
    simp only [inputFieldChars, List.mem_append]
    tauto
  have hslice : ∀ a b, OkStr data (pySlice (List.filter Char.isDigit data.birth_date) a b) := by
    intro a b c hc _
    exact Or.inl (hb c (List.mem_filter.1 (mem_pySlice hc)).1)
  have hyear6 :
      OkStr data ('2' :: '0' :: pySlice (List.filter Char.isDigit data.birth_date) 4 6) := by
    intro c hc hsp
    rcases List.mem_cons.1 hc with rfl | hc1
    · exact absurd hsp (by decide)
    · rcases List.mem_cons.1 hc1 with rfl | hc2
      · exact absurd hsp (by decide)
      · exact hslice 4 6 c hc2 hsp
  simp only [parseHumanDate]
  split
  · exact ⟨okStr_nil, okStr_nil, okStr_nil, okStr_nil⟩
  · split
    · exact ⟨hslice 0 2, hslice 2 4, hslice 4 8, hslice 6 8⟩
    · split
      · exact ⟨hslice 0 2, hslice 2 4, hyear6, hslice 4 6⟩
      · split
        · exact ⟨hslice 0 2, hslice 2 4, okStr_nil, okStr_nil⟩
        · exact ⟨okStr_nil, okStr_nil, okStr_nil, okStr_nil⟩

lemma okStr_pyLower_input {data : DataIn} {s : Str}
    (hsub : ∀ c ∈ s, c ∈ inputFieldChars data) : OkStr data (pyLower s) := by
  intro c hc hsp
  rcases List.mem_map.1 hc with ⟨c0, hc0, rfl⟩
  have he := pyLowerChar_special hsp
  rw [he]
  exact Or.inl (hsub c0 hc0)

lemma okStr_optArm {data : DataIn} (nm : String) (f : Str → Str) (o : Option Str)
    (hok : ∀ s, o = some s → OkStr data (f s)) :
    ∀ n v, (n, v) ∈ optArm nm f o → OkStr data v := by
  cases o with
  | none => intro n v hv; cases hv
  | some sp =>
      intro n v hv
      have := List.mem_singleton.1 hv
      injection this with h1 h2
      subst h2
      exact hok sp rfl

lemma okStr_buildVars (data : DataIn) (sv : Str) (hsv : OkStr data sv) :
    ∀ n v, (n, v) ∈ buildVars (pyLower data.first_name) (pyLower data.last_name)
        (pyLower data.nickname) (parseHumanDate data.birth_date) sv data →
      OkStr data v := by
  obtain ⟨hday, hmon, hyear, hys⟩ := okStr_dateFields data
  have hf : OkStr data (pyLower data.first_name) := by
    apply okStr_pyLower_input
    intro c h
    simp only [inputFieldChars, List.mem_append]
    tauto
  have hl : OkStr data (pyLower data.last_name) := by
    apply okStr_pyLower_input
    intro c h
    simp only [inputFieldChars, List.mem_append]
    tauto
  have hn : OkStr data (pyLower data.nickname) := by
    apply okStr_pyLower_input
    intro c h
    simp only [inputFieldChars, List.mem_append]
    tauto
  intro n v hv
  unfold buildVars at hv
  rcases List.mem_append.1 hv with hv1 | hvp
  · rcases List.mem_append.1 hv1 with hv2 | hvc
    · rcases List.mem_append.1 hv2 with hvb | hvs
      · simp only [List.mem_cons, Prod.mk.injEq, List.not_mem_nil, or_false] at hvb
        rcases hvb with ⟨_, rfl⟩ | ⟨_, rfl⟩ | ⟨_, rfl⟩ | ⟨_, rfl⟩ | ⟨_, rfl⟩ | ⟨_, rfl⟩ |
          ⟨_, rfl⟩ | ⟨_, rfl⟩ | ⟨_, rfl⟩ | ⟨_, rfl⟩ | ⟨_, rfl⟩ | ⟨_, rfl⟩
        · exact hf
        · exact okStr_of_subset (fun c hc => List.take_subset _ _ hc) hf
        · exact hl
        · exact okStr_of_subset (fun c hc => List.take_subset _ _ hc) hl
        · exact hn
        · exact hyear
        · exact hys
        · exact hday
        · exact hmon
        · exact hday
        · exact hmon
        · exact hsv
      · refine okStr_optArm _ _ _ ?_ n v hvs
        intro s hs
        apply okStr_of_subset (fun c hc => List.take_subset _ _ hc)
        apply okStr_pyLower_input
        intro c h
        simp only [inputFieldChars, List.mem_append, hs, Option.getD_some]
        tauto
    · refine okStr_optArm _ _ _ ?_ n v hvc
      intro s hs
      apply okStr_pyLower_input
      intro c h
      simp only [inputFieldChars, List.mem_append, hs, Option.getD_some]
      tauto
  · refine okStr_optArm _ _ _ ?_ n v hvp
    intro s hs
    apply okStr_pyLower_input
    intro c h
    simp only [inputFieldChars, List.mem_append, hs, Option.getD_some]
    tauto

lemma okStr_formatPattern {data : DataIn} {vars : List (String × Str)}
    (hv : ∀ n v, (n, v) ∈ vars → OkStr data v) :
    ∀ {pat : List PatItem} {pwd : Str},
      (∀ s, PatItem.lit s ∈ pat → OkStr data s) →
      formatPattern vars pat = some pwd → OkStr data pwd := by
  intro pat
  induction pat with
  | nil =>
      intro pwd _ h
      simp only [formatPattern, Option.some.injEq] at h
      subst h
      exact okStr_nil
  | cons it rest ih =>
      intro pwd hl h
      cases it with
      | lit s =>
          simp only [formatPattern] at h
          cases hr : formatPattern vars rest with
          | none => rw [hr] at h; cases h
          | some q =>
              rw [hr] at h
              simp only [Option.map_some', Option.some.injEq] at h
              subst h
              exact okStr_append (hl s (List.mem_cons_self _ _))
                (ih (fun s' hs' => hl s' (List.mem_cons_of_mem _ hs')) hr)
      | var nm =>
          simp only [formatPattern] at h
          cases hlk : List.lookup nm vars with
          | none => rw [hlk] at h; cases h
          | some v =>
              rw [hlk] at h
              cases hr : formatPattern vars rest with
              | none => rw [hr] at h; cases h
              | some q =>
                  rw [hr] at h
                  simp only [Option.map_some', Option.some.injEq] at h
                  subst h
                  rcases lookup_pair_mem _ _ _ hlk with ⟨k, hk, hbeq⟩
                  exact okStr_append (hv k v hk)
                    (ih (fun s' hs' => hl s' (List.mem_cons_of_mem _ hs')) hr)

/-- The literal text of a pattern item (empty for a placeholder). -/
def litChars : PatItem → Str
  | .lit s => s
  | .var _ => []

lemma humanPatterns_lits :
    ∀ pat ∈ humanPatterns, ∀ item ∈ pat, ∀ c ∈ litChars item,
      c ∈ commonSpecialChars → c ∈ litTableSpecials := by
  decide

lemma commonNumbers_nospecial :
    ∀ num ∈ commonNumbers, ∀ c ∈ num, c ∉ commonSpecialChars := by
  decide

lemma okSet_sadd {data : DataIn} {S : List Str} {x : Str} (hS : OkSet data S)
    (hx : OkStr data x) : OkSet data (sadd S x) := by
  intro pwd hpwd
  rcases mem_sadd.1 hpwd with h | rfl
  · exact hS _ h
  · exact hx

lemma okSet_supdate {data : DataIn} {S l : List Str} (hS : OkSet data S)
    (hl : ∀ y ∈ l, OkStr data y) : OkSet data (supdate S l) := by
  intro pwd hpwd
  rcases mem_supdate.1 hpwd with h | h
  · exact hS _ h
  · exact hl _ h

lemma okSet_applyPattern {data : DataIn} {addN : Bool} {vars : List (String × Str)}
    (hv : ∀ n v, (n, v) ∈ vars → OkStr data v) {pat : List PatItem}
    (hl : ∀ s, PatItem.lit s ∈ pat → OkStr data s) {S : List Str}
    (hS : OkSet data S) : OkSet data (applyPattern addN vars S pat) := by
  unfold applyPattern
  cases hf : formatPattern vars pat with
  | none => exact hS
  | some pwd =>
      have hpwd : OkStr data pwd := okStr_formatPattern hv hl hf
      dsimp only
      split
      · have h3 : OkSet data (sadd (sadd (sadd S pwd) (pyTitle pwd)) (pyCapitalize pwd)) :=
          okSet_sadd (okSet_sadd (okSet_sadd hS hpwd) (okStr_pyTitle hpwd))
            (okStr_pyCapitalize hpwd)
        split
        · apply foldl_preserve (OkSet data) _ _ _ _ h3
          intro s num hnum hs
          dsimp only
          have hnum' : OkStr data num :=
            okStr_nospecial (commonNumbers_nospecial num (List.take_subset _ _ hnum))
          have h1 : OkSet data (sadd s (pwd ++ num)) :=
            okSet_sadd hs (okStr_append hpwd hnum')
          split
          · split
            · exact okSet_sadd h1
                (okStr_append (okStr_append (okStr_split_part hpwd) hnum')
                  (okStr_split_part hpwd))
            · exact h1
          · exact h1
        · exact h3
      · exact hS

lemma okSet_nil {data : DataIn} : OkSet data [] := by
  intro pwd h
  cases h

lemma okStr_specificExamples (data : DataIn) :
    ∀ y ∈ specificExamples (pyLower data.first_name) (pyLower data.last_name)
        (parseHumanDate data.birth_date), OkStr data y := by
  obtain ⟨hday, hmon, hyear, hys⟩ := okStr_dateFields data
  have hf : OkStr data (pyLower data.first_name) := by
    apply okStr_pyLower_input
    intro c h
    simp only [inputFieldChars, List.mem_append]
    tauto
  have hl : OkStr data (pyLower data.last_name) := by
    apply okStr_pyLower_input
    intro c h
    simp only [inputFieldChars, List.mem_append]
    tauto
  have htf : OkStr data ((pyLower data.first_name).take 1) :=
    okStr_of_subset (fun c hc => List.take_subset _ _ hc) hf
  have htl : OkStr data ((pyLower data.last_name).take 1) :=
    okStr_of_subset (fun c hc => List.take_subset _ _ hc) hl
  have l123 : OkStr data "123".data := okStr_lit (by decide)
  have lb23 : OkStr data "!23".data := okStr_lit (by decide)
  have la123 : OkStr data "@123".data := okStr_lit (by decide)
  have ldot : OkStr data ['.'] := okStr_lit (by decide)
  have lund : OkStr data ['_'] := okStr_lit (by decide)
  have lat : OkStr data ['@'] := okStr_lit (by decide)
  intro y hy
  unfold specificExamples at hy
  split at hy
  · cases hy
  · simp only [List.mem_cons, List.not_mem_nil, or_false] at hy
    rcases hy with rfl | rfl | rfl | rfl | rfl | rfl | rfl | rfl | rfl | rfl | rfl | rfl |
      rfl | rfl | rfl | rfl | rfl | rfl | rfl | rfl | rfl | rfl | rfl <;>
      (repeat' apply okStr_append) <;> assumption

lemma okStr_commonPasswords (data : DataIn) :
    ∀ y ∈ commonPasswords (pyLower data.first_name) (pyLower data.last_name)
        (parseHumanDate data.birth_date), OkStr data y := by
  obtain ⟨hday, hmon, hyear, hys⟩ := okStr_dateFields data
  have hf : OkStr data (pyLower data.first_name) := by
    apply okStr_pyLower_input
    intro c h
    simp only [inputFieldChars, List.mem_append]
    tauto
  have hl : OkStr data (pyLower data.last_name) := by
    apply okStr_pyLower_input
    intro c h
    simp only [inputFieldChars, List.mem_append]
    tauto
  have htl : OkStr data ((pyLower data.last_name).take 1) :=
    okStr_of_subset (fun c hc => List.take_subset _ _ hc) hl
  have hlf : OkStr data (pyLower (pyLower data.first_name)) := okStr_pyLower hf
  have hll : OkStr data (pyLower (pyLower data.last_name)) := okStr_pyLower hl
  have htif : OkStr data (pyTitle (pyLower data.first_name)) := okStr_pyTitle hf
  have htil : OkStr data (pyTitle (pyLower data.last_name)) := okStr_pyTitle hl
  have l123 : OkStr data "123".data := okStr_lit (by decide)
  have l1234 : OkStr data "1234".data := okStr_lit (by decide)
  have lb23 : OkStr data "!23".data := okStr_lit (by decide)
  have la123 : OkStr data "@123".data := okStr_lit (by decide)
  have lh123 : OkStr data "#123".data := okStr_lit (by decide)
  intro y hy
  unfold commonPasswords at hy
  split at hy
  · cases hy
  · rcases List.mem_append.1 hy with hy1 | hy2
    · rcases List.mem_append.1 hy1 with hy3 | hy4
      · simp only [List.mem_cons, List.not_mem_nil, or_false] at hy3
        rcases hy3 with rfl | rfl | rfl | rfl | rfl | rfl | rfl <;>
          (repeat' apply okStr_append) <;> assumption
      · split at hy4
        · simp only [List.mem_cons, List.not_mem_nil, or_false] at hy4
          rcases hy4 with rfl | rfl | rfl <;>
            (repeat' apply okStr_append) <;> assumption
        · cases hy4
    · simp only [List.mem_cons, List.not_mem_nil, or_false] at hy2
      rcases hy2 with rfl | rfl | rfl | rfl <;> assumption

lemma okStr_dateCombos (data : DataIn) :
    ∀ y ∈ dateCombos (parseHumanDate data.birth_date), OkStr data y := by
  obtain ⟨hday, hmon, hyear, hys⟩ := okStr_dateFields data
  intro y hy
  unfold dateCombos at hy
  rcases List.mem_append.1 hy with hy1 | h
  · rcases List.mem_append.1 hy1 with hy2 | h
    · rcases List.mem_append.1 hy2 with h | h
      · split at h
        · simp only [List.mem_cons, List.not_mem_nil, or_false] at h
          rcases h with rfl | rfl <;> (repeat' apply okStr_append) <;> assumption
        · cases h
      · split at h
        · simp only [List.mem_cons, List.not_mem_nil, or_false] at h
          rcases h with rfl | rfl <;> (repeat' apply okStr_append) <;> assumption
        · cases h
    · split at h
      · simp only [List.mem_cons, List.not_mem_nil, or_false] at h
        subst h
        assumption
      · cases h
  · split at h
    · simp only [List.mem_cons, List.not_mem_nil, or_false] at h
      subst h
      assumption
    · cases h

lemma mem_dropTrailing {pwd : Str} {c : Char}
    (h : c ∈ (pwd.reverse.dropWhile Char.isDigit).reverse) : c ∈ pwd := by
  rw [List.mem_reverse] at h
  exact List.mem_reverse.1 (List.Sublist.mem h (List.dropWhile_sublist _))

lemma okSet_addNumberVariations {data : DataIn} {ord : List Str → List Str}
    (hord : ∀ (l : List Str) (x : Str), x ∈ ord l → x ∈ l)
    {S : List Str} (hS : OkSet data S) :
    OkSet data (addNumberVariations ord S (parseHumanDate data.birth_date)) := by
  have hmem : ∀ n, ∀ pwd ∈ (ord S).take n, OkStr data pwd :=
    fun n pwd h => hS _ (hord _ _ (List.take_subset _ _ h))
  unfold addNumberVariations
  dsimp only
  apply foldl_preserve (OkSet data) _ _ ?_ _ (foldl_preserve (OkSet data) _ _ ?_ _ okSet_nil)
  · intro s pwd hpwd hs
    dsimp only
    have hp : OkStr data pwd := hmem 50 pwd hpwd
    apply foldl_preserve (OkSet data) _ _ ?_ _ hs
    intro s' num hnum hs'
    dsimp only
    have hnum' : OkStr data num :=
      okStr_nospecial (commonNumbers_nospecial num (List.take_subset _ _ hnum))
    have h1 : OkSet data (sadd s' (pwd ++ num)) := okSet_sadd hs' (okStr_append hp hnum')
    split
    · split
      · exact okSet_sadd h1
          (okStr_append (okStr_append (okStr_split_part hp) hnum') (okStr_split_part hp))
      · exact h1
    · exact h1
  · intro s pwd hpwd hs
    dsimp only
    have hp : OkStr data pwd := hmem 100 pwd hpwd
    apply foldl_preserve (OkSet data) _ _ ?_ _ hs
    intro s' combo hcombo hs'
    dsimp only
    have hc : OkStr data combo := okStr_dateCombos data combo (List.take_subset _ _ hcombo)
    have h2 : OkSet data (sadd (sadd s' (pwd ++ combo)) (combo ++ pwd)) :=
      okSet_sadd (okSet_sadd hs' (okStr_append hp hc)) (okStr_append hc hp)
    split
    · split
      · exact okSet_sadd h2
          (okStr_append (okStr_of_subset (fun c hcc => mem_dropTrailing hcc) hp) hc)
      · exact h2
    · exact h2

lemma leetMap_ok :
    ∀ p ∈ leetMap, (∀ c ∈ p.2, c ∈ commonSpecialChars → c ∈ litTableSpecials)
      ∧ (p.1 ∈ commonSpecialChars → p.1 ∈ litTableSpecials) := by
  decide

lemma getD_mem_or (l : List Char) (i : Nat) (d : Char) :
    l.getD i d ∈ l ∨ l.getD i d = d := by
  rw [List.getD_eq_getElem?_getD]
  cases hg : l[i]? with
  | none => right; simp
  | some a =>
      left
      simpa using List.getElem?_mem hg

lemma okStr_leetStep {data : DataIn} {st : Str × List Nat} (h1 : OkStr data st.1)
    {e : Char × List Char} (he : e ∈ leetMap) : OkStr data (leetStep st e).1 := by
  obtain ⟨leet, rng⟩ := st
  obtain ⟨ch, subs⟩ := e
  have hsub : ∀ i, (subs.getD i ch ∈ commonSpecialChars → subs.getD i ch ∈ litTableSpecials) := by
    intro i hspx
    rcases getD_mem_or subs i ch with hm | hd
    · exact (leetMap_ok _ he).1 _ hm hspx
    · rw [hd] at hspx ⊢
      exact (leetMap_ok _ he).2 hspx
  unfold leetStep
  dsimp only at h1 ⊢
  split
  · split
    · dsimp only
      intro c hc hsp
      rcases mem_pyReplaceChar hc with h2 | h2
      · rcases mem_pyReplaceChar h2 with h3 | h3
        · exact h1 c h3 hsp
        · rcases List.mem_singleton.1 h3 with rfl
          exact Or.inr (hsub _ hsp)
      · rcases List.mem_singleton.1 h2 with rfl
        exact Or.inr (hsub _ hsp)
    · exact h1
  · exact h1

lemma okSet_addLeetVariations {data : DataIn} {ord : List Str → List Str}
    (hord : ∀ (l : List Str) (x : Str), x ∈ ord l → x ∈ l)
    {rng : List Nat} {S : List Str} (hS : OkSet data S) :
    OkSet data (addLeetVariations ord rng S) := by
  unfold addLeetVariations
  apply foldl_preserve (fun st : List Str × List Nat => OkSet data st.1) _ _ ?_
    ([], rng) okSet_nil
  intro st pwd hpwd hst
  obtain ⟨acc, r⟩ := st
  dsimp only at hst ⊢
  have hp : OkStr data pwd := hS _ (hord _ _ (List.take_subset _ _ hpwd))
  have hacc0 : OkSet data (sadd acc pwd) := okSet_sadd hst hp
  split
  · dsimp only
    have hleet : OkStr data (leetMap.foldl leetStep (pwd, (rngNext r).2)).1 :=
      foldl_preserve (fun st : Str × List Nat => OkStr data st.1) leetStep leetMap
        (fun st e he hst' => okStr_leetStep hst' he) _ hp
    split
    · exact okSet_sadd hacc0 hleet
    · exact hacc0
  · exact hacc0

lemma stageSpecials_false {ord : List Str → List Str} {specials : List Str}
    {s : List Str} : stageSpecials ord specials false s = s := rfl

lemma okSet_stageNumbers {data : DataIn} {ord : List Str → List Str}
    (hord : ∀ (l : List Str) (x : Str), x ∈ ord l → x ∈ l) {b : Bool}
    {S : List Str} (hS : OkSet data S) :
    OkSet data (stageNumbers ord (parseHumanDate data.birth_date) b S) := by
  unfold stageNumbers
  split
  · exact okSet_supdate hS (okSet_addNumberVariations hord hS)
  · exact hS

lemma okSet_stageLeet {data : DataIn} {ord : List Str → List Str}
    (hord : ∀ (l : List Str) (x : Str), x ∈ ord l → x ∈ l) {rng : List Nat}
    {b : Bool} {S : List Str} (hS : OkSet data S) :
    OkSet data (stageLeet ord rng b S) := by
  unfold stageLeet
  split
  · exact okSet_supdate hS (okSet_addLeetVariations hord hS)
  · exact hS

lemma okSet_generate (data : DataIn) (ord : List Str → List Str) (rng : List Nat)
    (hs : data.use_specials = false)
    (hord : ∀ (l : List Str) (x : Str), x ∈ ord l → x ∈ l) :
    OkSet data (generateSmartCombinations ord rng data) := by
  unfold generateSmartCombinations generateWithDate
  simp only [hs, Bool.false_eq_true, if_false]
  rw [stageSpecials_false]
  have hvars := okStr_buildVars data [] okStr_nil
  have hp1 : OkSet data (humanPatterns.foldl
      (applyPattern data.add_numbers
        (buildVars (pyLower data.first_name) (pyLower data.last_name)
          (pyLower data.nickname) (parseHumanDate data.birth_date) [] data)) []) := by
    apply foldl_preserve (OkSet data) _ _ ?_ _ okSet_nil
    intro s pat hpat hsSet
    apply okSet_applyPattern hvars ?_ hsSet
    intro ls hls
    exact okStr_lit (fun c hc => humanPatterns_lits pat hpat _ hls c hc)
  exact okSet_supdate
    (okSet_stageLeet hord
      (okSet_stageNumbers hord
        (okSet_supdate hp1 (okStr_specificExamples data))))
    (okStr_commonPasswords data)

/-- C2 (amended): when `use_specials` is false (and for any state of the
other toggles), every configured special character occurring in an
emitted candidate either occurred verbatim in an input Profile field or
is one of the literal special characters `! @ # $ . _` hard-coded in the
generator's pattern, example, and leet tables.  (The unamended claim
fails because of those literals: see the counterexample.) -/
theorem claim_c2 (data : DataIn) (ord : List Str → List Str) (rng : List Nat)
    (maxN : Int) (hord : ∀ (l : List Str) (x : Str), x ∈ ord l → x ∈ l)
    (hs : data.use_specials = false) :
    ∀ pwd ∈ fullPipeline ord rng data maxN, ∀ c ∈ pwd,
      c ∈ commonSpecialChars → c ∈ inputFieldChars data ∨ c ∈ litTableSpecials := by
  intro pwd hpwd
  unfold fullPipeline at hpwd
  have h1 := mem_sortLe.1 hpwd
  have h2 : pwd ∈ analyzeAndFilter (generateSmartCombinations ord rng data) 6 20 := by
    unfold limitStep at h1
    split at h1
    · rcases mem_supdate.1 h1 with h | h
      · cases h
      · exact hord _ _ (List.take_subset _ _ h)
    · exact h1
  have h3 : pwd ∈ generateSmartCombinations ord rng data := by
    unfold analyzeAndFilter at h2
    exact (List.mem_filter.1 h2).1
  exact okSet_generate data ord rng hs hord pwd h3

set_option maxRecDepth 40000 in
/-- Witness for C2 at the concrete profile of the counterexample: the
`!` of the emitted `john!23` is accounted for by the literal tables. -/
theorem claim_c2_witness :
    '!' ∈ inputFieldChars c2data ∨ '!' ∈ litTableSpecials :=
  claim_c2 c2data id [] 5000 (fun _ _ h => h) rfl "john!23".data (by decide) '!'
    (by decide) (by decide)
